import Mathlib

/-!
Shallow embedding of the multi-threaded chat server (server.c, embedded in
src/test.sh after the test driver) together with proofs about the claims of
the specification.  C strings are modelled as Lean `String` or `List Char`
(the server only manipulates ASCII); the fixed-size client and room arrays
become Lean lists indexed by slot number; semaphore values are naturals.
-/

namespace ChatServer

/-! ## Compile-time constants of server.c -/

def MAX_CLIENTS : Nat := 15
def MAX_ROOMS : Nat := 10
def MAX_USERNAME_LEN : Nat := 16
def MAX_ROOM_NAME_LEN : Nat := 32
def MAX_FILE_SIZE : Nat := 3145728
def MAX_UPLOAD_QUEUE : Nat := 5

/-! ## validate_filename

`validate_filename` (test.sh lines 980-991): reject when `strlen < 5` or no
`'.'` occurs; otherwise `strrchr(filename, '.')` yields the suffix starting
at the LAST dot, which must be exactly one of `.txt .pdf .jpg .png`.
`strrchrSuffix` models `strrchr`: it returns the suffix of the character
list starting at the last occurrence of `'.'`. -/

def strrchrSuffix : List Char → Option (List Char)
  | [] => none
  | c :: rest =>
    match strrchrSuffix rest with
    | some s => some s
    | none => if c = '.' then some (c :: rest) else none

def validate_filename (filename : List Char) : Bool :=
  if filename.length < 5 then false
  else
    match strrchrSuffix filename with
    | none => false
    | some ext =>
      ext == ".txt".toList || ext == ".pdf".toList ||
      ext == ".jpg".toList || ext == ".png".toList

/-! Helper lemmas about `strrchrSuffix`. -/

theorem strrchrSuffix_isSuffix {l s : List Char} (h : strrchrSuffix l = some s) :
    s <:+ l := by
  induction l with
  | nil => simp [strrchrSuffix] at h
  | cons c rest ih =>
    simp only [strrchrSuffix] at h
    cases hrest : strrchrSuffix rest with
    | some t =>
      rw [hrest] at h
      obtain rfl : t = s := by injection h
      exact (ih hrest).trans (List.suffix_cons c rest)
    | none =>
      rw [hrest] at h
      by_cases hc : c = '.'
      · subst hc
        simp at h
        subst h
        exact List.suffix_rfl
      · simp [hc] at h

theorem strrchrSuffix_of_not_mem {l : List Char} (h : '.' ∉ l) :
    strrchrSuffix l = none := by
  induction l with
  | nil => rfl
  | cons c rest ih =>
    simp only [List.mem_cons, not_or] at h
    have hc : ¬ c = '.' := fun hc => h.1 hc.symm
    simp [strrchrSuffix, ih h.2, hc]

theorem strrchrSuffix_append_last {p t : List Char} (h : '.' ∉ t) :
    strrchrSuffix (p ++ '.' :: t) = some ('.' :: t) := by
  induction p with
  | nil =>
    simp [strrchrSuffix, strrchrSuffix_of_not_mem h]
  | cons c p ih =>
    rw [List.cons_append]
    simp [strrchrSuffix, ih]

theorem validate_filename_iff (f : List Char) :
    validate_filename f = true ↔
      (5 ≤ f.length ∧ '.' ∈ f ∧
        (".txt".toList <:+ f ∨ ".pdf".toList <:+ f ∨
         ".jpg".toList <:+ f ∨ ".png".toList <:+ f)) := by
  constructor
  · intro h
    unfold validate_filename at h
    by_cases hl : f.length < 5
    · simp [hl] at h
    · cases hs : strrchrSuffix f with
      | none => rw [hs] at h; simp [hl] at h
      | some ext =>
        rw [hs] at h
        simp [hl] at h
        have hsuf := strrchrSuffix_isSuffix hs
        refine ⟨by omega, ?_, ?_⟩
        · rcases h with ((rfl | rfl) | rfl) | rfl <;>
            exact hsuf.subset (by decide)
        · rcases h with ((rfl | rfl) | rfl) | rfl
          · exact Or.inl hsuf
          · exact Or.inr (Or.inl hsuf)
          · exact Or.inr (Or.inr (Or.inl hsuf))
          · exact Or.inr (Or.inr (Or.inr hsuf))
  · rintro ⟨hl, -, hsuf⟩
    have hx : ∃ t : List Char, '.' ∉ t ∧ ('.' :: t) <:+ f ∧
        (('.' :: t) = ".txt".toList ∨ ('.' :: t) = ".pdf".toList ∨
         ('.' :: t) = ".jpg".toList ∨ ('.' :: t) = ".png".toList) := by
      rcases hsuf with h | h | h | h
      · exact ⟨"txt".toList, by decide, h, by decide⟩
      · exact ⟨"pdf".toList, by decide, h, by decide⟩
      · exact ⟨"jpg".toList, by decide, h, by decide⟩
      · exact ⟨"png".toList, by decide, h, by decide⟩
    obtain ⟨t, hnt, hsf, hext⟩ := hx
    obtain ⟨p, hp⟩ := hsf
    unfold validate_filename
    rw [← hp, strrchrSuffix_append_last hnt]
    have hlen : ¬ (p ++ '.' :: t).length < 5 := by rw [hp]; omega
    simp only [hlen, if_false]
    rcases hext with h | h | h | h <;> simp [h]

/-- C10: `validate_filename` accepts a string exactly when it is at least 5
characters long, contains a dot, and its suffix starting at the last dot is
exactly one of `.txt`, `.pdf`, `.jpg`, `.png` (case-sensitively); in
particular the bare extension `".txt"` (length 4) and the upper-case variant
`"a.TXT"` are rejected. -/
theorem spec_C10_validate_filename :
    (∀ f : List Char, validate_filename f = true ↔
      (5 ≤ f.length ∧ '.' ∈ f ∧
        (".txt".toList <:+ f ∨ ".pdf".toList <:+ f ∨
         ".jpg".toList <:+ f ∨ ".png".toList <:+ f))) ∧
    validate_filename ".txt".toList = false ∧
    validate_filename "a.TXT".toList = false ∧
    validate_filename "ab.txt".toList = true :=
  ⟨validate_filename_iff, by decide, by decide, by decide⟩

/-! ## Upload queue (bounded circular buffer, capacity 5)

Embedding of `UploadQueue` from server.c: `FileTransfer queue[MAX_UPLOAD_QUEUE]`
with indices `front`, `rear`, `count`, a semaphore `slots` (initially 5) and a
semaphore `items` (initially 0).  `buf` models the fixed array, `slots` and
`items` the current semaphore values.  A producer step is the committed
sequence acquire-`slots` / locked enqueue / post-`items` executed by
`handle_file_send`; a consumer step is acquire-`items` / locked dequeue /
post-`slots` executed by `file_transfer_handler`.  Steps are `none` when the
semaphore acquire would block. -/

structure FileTransfer where
  filename : String
  sender : String
  receiver : String
  file_size : Nat
  deriving Repr, DecidableEq, Inhabited

structure UploadQueue where
  buf : List FileTransfer
  front : Nat
  rear : Nat
  count : Nat
  slots : Nat
  items : Nat
  deriving Repr, DecidableEq, Inhabited

def initQueue : UploadQueue :=
  { buf := List.replicate MAX_UPLOAD_QUEUE default
    front := 0, rear := 0, count := 0
    slots := MAX_UPLOAD_QUEUE, items := 0 }

def producer_step (q : UploadQueue) (t : FileTransfer) : Option UploadQueue :=
  if q.slots = 0 then none
  else some
    { buf := q.buf.set q.rear t
      front := q.front
      rear := (q.rear + 1) % MAX_UPLOAD_QUEUE
      count := q.count + 1
      slots := q.slots - 1
      items := q.items + 1 }

def consumer_step (q : UploadQueue) : Option (FileTransfer × UploadQueue) :=
  if q.items = 0 then none
  else some (q.buf.getD q.front default,
    { buf := q.buf
      front := (q.front + 1) % MAX_UPLOAD_QUEUE
      rear := q.rear
      count := q.count - 1
      slots := q.slots + 1
      items := q.items - 1 })

/-- Well-formedness of the circular buffer at a rest point. -/
def QWF (q : UploadQueue) : Prop :=
  q.buf.length = MAX_UPLOAD_QUEUE ∧ q.front < MAX_UPLOAD_QUEUE ∧
  q.count ≤ MAX_UPLOAD_QUEUE ∧ q.rear = (q.front + q.count) % MAX_UPLOAD_QUEUE ∧
  q.items = q.count ∧ q.slots = MAX_UPLOAD_QUEUE - q.count

instance (q : UploadQueue) : Decidable (QWF q) := by
  unfold QWF; infer_instance

/-- Abstraction function: the logical FIFO content of the circular buffer,
oldest first. -/
def absQueue (q : UploadQueue) : List FileTransfer :=
  (List.range q.count).map
    (fun k => q.buf.getD ((q.front + k) % MAX_UPLOAD_QUEUE) default)

theorem absQueue_length (q : UploadQueue) : (absQueue q).length = q.count := by
  simp [absQueue]

theorem producer_step_abs {q : UploadQueue} {t : FileTransfer} {q' : UploadQueue}
    (hwf : QWF q) (h : producer_step q t = some q') :
    QWF q' ∧ absQueue q' = absQueue q ++ [t] := by
  obtain ⟨hlen, hfr, hcnt, hrear, hit, hsl⟩ := hwf
  unfold producer_step at h
  by_cases hz : q.slots = 0
  · simp [hz] at h
  · simp [hz] at h
    have hcount : q.count < MAX_UPLOAD_QUEUE := by
      unfold MAX_UPLOAD_QUEUE at *; omega
    constructor
    · subst h
      refine ⟨by simpa using hlen, hfr, ?_, ?_, ?_, ?_⟩ <;>
        simp only [hrear, hit, hsl] <;> unfold MAX_UPLOAD_QUEUE at * <;> omega
    · subst h
      show (List.range (q.count + 1)).map _ = _
      rw [List.range_succ, List.map_append]
      congr 1
      · apply List.map_congr_left
        intro k hk
        simp only [List.mem_range] at hk
        have hne : (q.front + k) % MAX_UPLOAD_QUEUE ≠ q.rear := by
          rw [hrear]; unfold MAX_UPLOAD_QUEUE at *; omega
        have hlt : (q.front + k) % MAX_UPLOAD_QUEUE < q.buf.length := by
          rw [hlen]; unfold MAX_UPLOAD_QUEUE at *; omega
        rw [List.getD_eq_getElem _ _ (by simpa using hlt),
            List.getD_eq_getElem _ _ hlt]
        simp [List.getElem_set, Ne.symm hne]
      · have hre : q.rear < q.buf.length := by
          rw [hlen, hrear]; unfold MAX_UPLOAD_QUEUE at *; omega
        have heq : (q.front + q.count) % MAX_UPLOAD_QUEUE = q.rear := hrear.symm
        simp only [List.map_cons, List.map_nil, heq]
        rw [List.getD_eq_getElem _ _ (by simpa using hre)]
        simp [List.getElem_set]

theorem consumer_step_abs {q : UploadQueue} {t : FileTransfer} {q' : UploadQueue}
    (hwf : QWF q) (h : consumer_step q = some (t, q')) :
    QWF q' ∧ absQueue q = t :: absQueue q' := by
  obtain ⟨hlen, hfr, hcnt, hrear, hit, hsl⟩ := hwf
  unfold consumer_step at h
  by_cases hz : q.items = 0
  · simp [hz] at h
  · simp [hz] at h
    obtain ⟨rfl, rfl⟩ := h
    have hpos : 0 < q.count := by omega
    constructor
    · refine ⟨hlen, ?_, ?_, ?_, ?_, ?_⟩ <;>
        simp only [hrear, hit, hsl] <;> unfold MAX_UPLOAD_QUEUE at * <;> omega
    · show (List.range q.count).map _ = _
      obtain ⟨c, hc⟩ : ∃ c, q.count = c + 1 := ⟨q.count - 1, by omega⟩
      rw [hc, List.range_succ_eq_map, List.map_cons, List.map_map]
      congr 1
      · simp [List.getD, Nat.mod_eq_of_lt hfr]
      · show _ = absQueue _
        simp only [absQueue, Nat.add_sub_cancel]
        apply List.map_congr_left
        intro k hk
        simp only [List.mem_range] at hk
        have hmod : (q.front + Nat.succ k) % MAX_UPLOAD_QUEUE =
            ((q.front + 1) % MAX_UPLOAD_QUEUE + k) % MAX_UPLOAD_QUEUE := by
          unfold MAX_UPLOAD_QUEUE at *; omega
        simp [Function.comp, hmod]

/-! Interleavings of committed producer and consumer steps, and the abstract
FIFO they refine.  A step whose semaphore acquire would block leaves the
state unchanged at that rest point. -/

inductive QOp where
  | enq (t : FileTransfer)
  | deq
  deriving Repr, DecidableEq

def runQueue : List QOp → UploadQueue → UploadQueue × List FileTransfer
  | [], q => (q, [])
  | QOp.enq t :: ops, q =>
    match producer_step q t with
    | none => runQueue ops q
    | some q' => runQueue ops q'
  | QOp.deq :: ops, q =>
    match consumer_step q with
    | none => runQueue ops q
    | some (t, q') => ((runQueue ops q').1, t :: (runQueue ops q').2)

def runListQueue : List QOp → List FileTransfer → List FileTransfer × List FileTransfer
  | [], l => (l, [])
  | QOp.enq t :: ops, l =>
    if l.length < MAX_UPLOAD_QUEUE then runListQueue ops (l ++ [t])
    else runListQueue ops l
  | QOp.deq :: ops, l =>
    match l with
    | [] => runListQueue ops []
    | t :: l2 => ((runListQueue ops l2).1, t :: (runListQueue ops l2).2)

theorem runQueue_refines : ∀ (ops : List QOp) (q : UploadQueue), QWF q →
    QWF (runQueue ops q).1 ∧
    absQueue (runQueue ops q).1 = (runListQueue ops (absQueue q)).1 ∧
    (runQueue ops q).2 = (runListQueue ops (absQueue q)).2 := by
  intro ops
  induction ops with
  | nil => intro q hwf; exact ⟨hwf, rfl, rfl⟩
  | cons op ops ih =>
    intro q hwf
    have hwf0 := hwf
    obtain ⟨hlen, hfr, hcnt, hrear, hit, hsl⟩ := hwf0
    cases op with
    | enq t =>
      by_cases hz : q.slots = 0
      · have hps : producer_step q t = none := by simp [producer_step, hz]
        have hfull : ¬ (absQueue q).length < MAX_UPLOAD_QUEUE := by
          rw [absQueue_length]; unfold MAX_UPLOAD_QUEUE at *; omega
        simp only [runQueue, runListQueue, hps, hfull, if_false]
        exact ih q hwf
      · have hps : producer_step q t = some
            { buf := q.buf.set q.rear t
              front := q.front
              rear := (q.rear + 1) % MAX_UPLOAD_QUEUE
              count := q.count + 1
              slots := q.slots - 1
              items := q.items + 1 } := by simp [producer_step, hz]
        obtain ⟨hwf', habs⟩ := producer_step_abs hwf hps
        have hnotfull : (absQueue q).length < MAX_UPLOAD_QUEUE := by
          rw [absQueue_length]; unfold MAX_UPLOAD_QUEUE at *; omega
        simp only [runQueue, runListQueue, hps, hnotfull, if_true]
        rw [← habs]
        exact ih _ hwf'
    | deq =>
      by_cases hz : q.items = 0
      · have hcs : consumer_step q = none := by simp [consumer_step, hz]
        have hempty : absQueue q = [] := by
          have h0 : (absQueue q).length = 0 := by rw [absQueue_length]; omega
          exact List.length_eq_zero.mp h0
        rw [hempty]
        simp only [runQueue, runListQueue, hcs]
        rw [← hempty]
        exact ih q hwf
      · have hcs : consumer_step q = some (q.buf.getD q.front default,
            { buf := q.buf
              front := (q.front + 1) % MAX_UPLOAD_QUEUE
              rear := q.rear
              count := q.count - 1
              slots := q.slots + 1
              items := q.items - 1 }) := by simp [consumer_step, hz]
        obtain ⟨hwf', habs⟩ := consumer_step_abs hwf hcs
        rw [habs]
        simp only [runQueue, runListQueue, hcs]
        obtain ⟨h1, h2, h3⟩ := ih _ hwf'
        exact ⟨h1, h2, by rw [h3]⟩

theorem runListQueue_append (ops1 ops2 : List QOp) (l : List FileTransfer) :
    runListQueue (ops1 ++ ops2) l =
      ((runListQueue ops2 (runListQueue ops1 l).1).1,
       (runListQueue ops1 l).2 ++ (runListQueue ops2 (runListQueue ops1 l).1).2) := by
  induction ops1 generalizing l with
  | nil => simp [runListQueue]
  | cons op ops ih =>
    cases op with
    | enq t =>
      by_cases h : l.length < MAX_UPLOAD_QUEUE <;> simp [runListQueue, h, ih]
    | deq =>
      cases l with
      | nil => simp [runListQueue, ih]
      | cons t l2 => simp [runListQueue, ih]

theorem runListQueue_enqs (ts l : List FileTransfer)
    (h : l.length + ts.length ≤ MAX_UPLOAD_QUEUE) :
    runListQueue (ts.map QOp.enq) l = (l ++ ts, []) := by
  induction ts generalizing l with
  | nil => simp [runListQueue]
  | cons t ts ih =>
    have hlt : l.length < MAX_UPLOAD_QUEUE := by
      simp only [List.length_cons] at h; omega
    have hrec := ih (l ++ [t]) (by simp at h ⊢; omega)
    simp [runListQueue, hlt, hrec]

theorem runListQueue_deqs (l : List FileTransfer) :
    runListQueue (List.replicate l.length QOp.deq) l = ([], l) := by
  induction l with
  | nil => simp [runListQueue]
  | cons t l2 ih =>
    simp only [List.length_cons, List.replicate_succ]
    simp [runListQueue, ih]

theorem absQueue_init : absQueue initQueue = [] := by
  simp [absQueue, initQueue]

/-- C5: the circular-buffer upload queue refines an abstract FIFO list: under
any interleaving of committed producer and consumer steps, the buffer's
logical content tracks the list (enqueue appends, dequeue takes the head),
and in particular a sequence of committed enqueues followed by the single
Transfer worker's dequeues delivers the records in exactly the commit
order. -/
theorem spec_C5_fifo_refinement :
    (∀ (ops : List QOp) (q : UploadQueue), QWF q →
      QWF (runQueue ops q).1 ∧
      absQueue (runQueue ops q).1 = (runListQueue ops (absQueue q)).1 ∧
      (runQueue ops q).2 = (runListQueue ops (absQueue q)).2) ∧
    (∀ ts : List FileTransfer, ts.length ≤ MAX_UPLOAD_QUEUE →
      (runQueue (ts.map QOp.enq ++ List.replicate ts.length QOp.deq)
        initQueue).2 = ts) := by
  refine ⟨runQueue_refines, ?_⟩
  intro ts hts
  have hwf : QWF initQueue := by decide
  have hsim := (runQueue_refines
    (ts.map QOp.enq ++ List.replicate ts.length QOp.deq) initQueue hwf).2.2
  rw [hsim, absQueue_init, runListQueue_append,
      runListQueue_enqs ts [] (by simpa using hts)]
  simp [runListQueue_deqs]

theorem spec_C5_fifo_refinement_witness :
    QWF initQueue ∧
    (QWF (runQueue [QOp.enq ⟨"a.txt", "u1", "u2", 3⟩, QOp.deq] initQueue).1) ∧
    ([(⟨"a.txt", "u1", "u2", 3⟩ : FileTransfer),
      ⟨"b.pdf", "u3", "u4", 7⟩].length ≤ MAX_UPLOAD_QUEUE) ∧
    (runQueue ([(⟨"a.txt", "u1", "u2", 3⟩ : FileTransfer),
        ⟨"b.pdf", "u3", "u4", 7⟩].map QOp.enq ++
      List.replicate [(⟨"a.txt", "u1", "u2", 3⟩ : FileTransfer),
        ⟨"b.pdf", "u3", "u4", 7⟩].length QOp.deq) initQueue).2 =
      [⟨"a.txt", "u1", "u2", 3⟩, ⟨"b.pdf", "u3", "u4", 7⟩] :=
  ⟨by decide,
   (spec_C5_fifo_refinement.1 [QOp.enq ⟨"a.txt", "u1", "u2", 3⟩, QOp.deq]
     initQueue (by decide)).1,
   by decide,
   spec_C5_fifo_refinement.2 _ (by decide)⟩

/-- Balance invariant of the upload queue: the two semaphore values always
sum to the capacity, and the advisory `count` field tracks `items`. -/
def QueueBalance (q : UploadQueue) : Prop :=
  q.slots + q.items = MAX_UPLOAD_QUEUE ∧ q.count = q.items

instance (q : UploadQueue) : Decidable (QueueBalance q) := by
  unfold QueueBalance; infer_instance

theorem queueBalance_run (ops : List QOp) (q : UploadQueue)
    (h : QueueBalance q) : QueueBalance (runQueue ops q).1 := by
  induction ops generalizing q with
  | nil => exact h
  | cons op ops ih =>
    obtain ⟨h1, h2⟩ := h
    cases op with
    | enq t =>
      by_cases hz : q.slots = 0
      · have hps : producer_step q t = none := by simp [producer_step, hz]
        simp only [runQueue, hps]
        exact ih q ⟨h1, h2⟩
      · have hps : producer_step q t = some
            { buf := q.buf.set q.rear t
              front := q.front
              rear := (q.rear + 1) % MAX_UPLOAD_QUEUE
              count := q.count + 1
              slots := q.slots - 1
              items := q.items + 1 } := by simp [producer_step, hz]
        simp only [runQueue, hps]
        exact ih _ ⟨by simp; omega, by simp; omega⟩
    | deq =>
      by_cases hz : q.items = 0
      · have hcs : consumer_step q = none := by simp [consumer_step, hz]
        simp only [runQueue, hcs]
        exact ih q ⟨h1, h2⟩
      · have hcs : consumer_step q = some (q.buf.getD q.front default,
            { buf := q.buf
              front := (q.front + 1) % MAX_UPLOAD_QUEUE
              rear := q.rear
              count := q.count - 1
              slots := q.slots + 1
              items := q.items - 1 }) := by simp [consumer_step, hz]
        simp only [runQueue, hcs]
        exact ih _ ⟨by simp; omega, by simp; omega⟩

/-- C6: for the capacity-5 upload queue, `slots + items = 5` and
`count = items` hold initially, are preserved by every committed enqueue
(acquire `slots`, update under mutex, post `items`) and every committed
dequeue (acquire `items`, update under mutex, post `slots`), and therefore
hold at every rest point reachable from the initial queue. -/
theorem spec_C6_queue_balance :
    QueueBalance initQueue ∧
    (∀ (q : UploadQueue) (t : FileTransfer) (q' : UploadQueue),
      QueueBalance q → producer_step q t = some q' → QueueBalance q') ∧
    (∀ (q : UploadQueue) (t : FileTransfer) (q' : UploadQueue),
      QueueBalance q → consumer_step q = some (t, q') → QueueBalance q') ∧
    (∀ ops : List QOp, QueueBalance (runQueue ops initQueue).1) := by
  refine ⟨by decide, ?_, ?_, ?_⟩
  · intro q t q' ⟨h1, h2⟩ hps
    unfold producer_step at hps
    by_cases hz : q.slots = 0
    · simp [hz] at hps
    · simp [hz] at hps
      subst hps
      exact ⟨by simp; omega, by simp; omega⟩
  · intro q t q' ⟨h1, h2⟩ hcs
    unfold consumer_step at hcs
    by_cases hz : q.items = 0
    · simp [hz] at hcs
    · simp [hz] at hcs
      obtain ⟨rfl, rfl⟩ := hcs
      exact ⟨by simp; omega, by simp; omega⟩
  · intro ops
    exact queueBalance_run ops initQueue (by decide)

theorem spec_C6_queue_balance_witness :
    QueueBalance initQueue ∧
    QueueBalance (runQueue [QOp.enq ⟨"a.txt", "u1", "u2", 3⟩,
      QOp.enq ⟨"b.pdf", "u3", "u4", 7⟩, QOp.deq] initQueue).1 :=
  ⟨spec_C6_queue_balance.1,
   spec_C6_queue_balance.2.2.2 [QOp.enq ⟨"a.txt", "u1", "u2", 3⟩,
     QOp.enq ⟨"b.pdf", "u3", "u4", 7⟩, QOp.deq]⟩

/-! ## Clients and the user registry

`Client` embeds the C struct (minus the peer address, which the claims never
touch).  The fixed array `clients[MAX_CLIENTS]` becomes a list indexed by
slot number; `find_client_by_username` (test.sh lines 993-1000) returns the
index of the first active client whose username matches exactly. -/

structure Client where
  socket : Int
  username : String
  current_room : String
  active : Bool
  deriving Repr, DecidableEq, Inhabited

def isAlnumChar (c : Char) : Bool :=
  ('a' ≤ c && c ≤ 'z') || ('A' ≤ c && c ≤ 'Z') || ('0' ≤ c && c ≤ '9')

def validate_username (username : String) : Bool :=
  if username.length = 0 ∨ MAX_USERNAME_LEN < username.length then false
  else username.toList.all isAlnumChar

def find_client_by_username (clients : List Client) (username : String) :
    Option Nat :=
  clients.findIdx? (fun c => c.active && c.username == username)

/-- One iteration of the username-registration loop of `client_handler`
(test.sh lines 536-570), after a line has been received and its newline
stripped.  On success the username is committed under the clients lock and
the loop breaks (the `[SUCCESS]` greeting is sent outside the loop). -/
structure NamingOutcome where
  clients : List Client
  msgs : List String
  logs : List String
  registered : Bool
  deriving Repr, DecidableEq

def naming_step (clients : List Client) (i : Nat) (u : String) : NamingOutcome :=
  if validate_username u = false then
    ⟨clients, ["[ERROR] Invalid username. Use alphanumeric characters only.\n"],
     [], false⟩
  else if (find_client_by_username clients u).isSome then
    ⟨clients, ["[ERROR] Username already taken. Choose another.\n"],
     ["[REJECTED] Duplicate username attempted: " ++ u], false⟩
  else
    ⟨clients.set i { clients.getD i default with username := u }, [], [], true⟩

/-- Username uniqueness: two distinct active slots never carry the same
non-empty username. -/
def uniqueUsernames (clients : List Client) : Prop :=
  ∀ i : Nat, i < clients.length → ∀ j : Nat, j < clients.length →
    (i ≠ j ∧ (clients.getD i default).active = true ∧
      (clients.getD j default).active = true) →
    (clients.getD i default).username ≠ (clients.getD j default).username ∨
    (clients.getD i default).username = "" ∨
    (clients.getD j default).username = ""

instance (clients : List Client) : Decidable (uniqueUsernames clients) := by
  unfold uniqueUsernames; infer_instance

theorem getD_set_ne {α : Type _} (l : List α) (i j : Nat) (x d : α)
    (h : i ≠ j) : (l.set i x).getD j d = l.getD j d := by
  simp [List.getD_eq_getElem?_getD, List.getElem?_set_ne h]

theorem getD_set_self {α : Type _} (l : List α) (i : Nat) (x d : α)
    (h : i < l.length) : (l.set i x).getD i d = x := by
  simp [List.getD_eq_getElem?_getD, List.getElem?_set_self h]

theorem validate_username_ne_empty {u : String}
    (h : validate_username u = true) : u ≠ "" := by
  intro he
  rw [he] at h
  exact absurd h (by decide)

theorem find_none_no_match {clients : List Client} {u : String}
    (h : find_client_by_username clients u = none)
    {j : Nat} (hj : j < clients.length)
    (hact : (clients.getD j default).active = true) :
    (clients.getD j default).username ≠ u := by
  rw [find_client_by_username, List.findIdx?_eq_none_iff] at h
  have hmem : clients.getD j default ∈ clients := by
    rw [List.getD_eq_getElem _ _ hj]
    exact List.getElem_mem hj
  have hp := h _ hmem
  rw [Bool.and_eq_false_iff] at hp
  rcases hp with hp | hp
  · rw [hact] at hp; cases hp
  · intro he
    rw [he] at hp
    simp at hp

/-- C1: provided every pair of distinct active sessions has distinct or
empty usernames, the Naming step preserves that invariant; and whenever the
requested name is well-formed but an active client already holds it, the
step emits exactly `"[ERROR] Username already taken. Choose another.\n"`,
logs a REJECTED event, and leaves the registry unchanged without
registering the name. -/
theorem spec_C1_username_uniqueness (clients : List Client) (i : Nat)
    (u : String) (huniq : uniqueUsernames clients) :
    ((validate_username u = true ∧
        (find_client_by_username clients u).isSome = true) →
      naming_step clients i u =
        ⟨clients, ["[ERROR] Username already taken. Choose another.\n"],
         ["[REJECTED] Duplicate username attempted: " ++ u], false⟩) ∧
    uniqueUsernames (naming_step clients i u).clients := by
  constructor
  · rintro ⟨hv, hs⟩
    simp [naming_step, hv, hs]
  · by_cases hv : validate_username u = false
    · simp [naming_step, hv]; exact huniq
    · cases hf : (find_client_by_username clients u).isSome with
      | true => simp [naming_step, hv, hf]; exact huniq
      | false =>
        have hnone : find_client_by_username clients u = none :=
          Option.not_isSome_iff_eq_none.mp (by rw [hf]; exact Bool.false_ne_true)
        have hval : validate_username u = true := by
          revert hv; cases validate_username u <;> simp
        have hu : u ≠ "" := validate_username_ne_empty hval
        have hred : (naming_step clients i u).clients =
            clients.set i { clients.getD i default with username := u } := by
          simp [naming_step, hval, hf]
        rw [hred]
        by_cases hi : i < clients.length
        · intro a ha b hb hcond
          obtain ⟨hab, hactA, hactB⟩ := hcond
          rw [List.length_set] at ha hb
          by_cases hA : a = i
          · have hBne : i ≠ b := hA ▸ hab
            rw [hA] at hactA ⊢
            rw [getD_set_self clients i _ default hi] at hactA ⊢
            rw [getD_set_ne clients i b _ default hBne] at hactB ⊢
            left
            intro he
            exact find_none_no_match hnone hb hactB he.symm
          · by_cases hB : b = i
            · have hAne : i ≠ a := fun h => hA h.symm
              rw [hB] at hactB ⊢
              rw [getD_set_self clients i _ default hi] at hactB ⊢
              rw [getD_set_ne clients i a _ default hAne] at hactA ⊢
              left
              intro he
              exact find_none_no_match hnone ha hactA he
            · rw [getD_set_ne clients i a _ default (fun h => hA h.symm)] at hactA ⊢
              rw [getD_set_ne clients i b _ default (fun h => hB h.symm)] at hactB ⊢
              exact huniq a ha b hb ⟨hab, hactA, hactB⟩
        · rw [List.set_eq_of_length_le (Nat.le_of_not_lt hi)]
          exact huniq

theorem spec_C1_username_uniqueness_witness :
    uniqueUsernames [⟨1, "alice", "", true⟩, ⟨2, "", "", true⟩] ∧
    naming_step [⟨1, "alice", "", true⟩, ⟨2, "", "", true⟩] 1 "alice" =
      ⟨[⟨1, "alice", "", true⟩, ⟨2, "", "", true⟩],
       ["[ERROR] Username already taken. Choose another.\n"],
       ["[REJECTED] Duplicate username attempted: " ++ "alice"], false⟩ ∧
    uniqueUsernames (naming_step [⟨1, "alice", "", true⟩,
      ⟨2, "", "", true⟩] 1 "alice").clients :=
  ⟨by decide,
   (spec_C1_username_uniqueness _ 1 "alice" (by decide)).1 ⟨by decide, by decide⟩,
   (spec_C1_username_uniqueness _ 1 "alice" (by decide)).2⟩

/-! ## Rooms and broadcast

`Room` embeds the C struct: the `Client* members[MAX_CLIENTS]` array of the
first `member_count` non-null pointers becomes a list of client slot
indices, in order.  `ServerState` bundles the two global arrays.
`broadcast_to_room` (test.sh lines 708-726) sends the room-tagged line to
every active member whose username differs from the sender; the default
`Client` (inactive) plays the role of a NULL member pointer. -/

structure Room where
  name : String
  members : List Nat
  active : Bool
  deriving Repr, DecidableEq, Inhabited

structure ServerState where
  clients : List Client
  rooms : List Room
  deriving Repr, DecidableEq

structure Msg where
  dest : Nat
  text : String
  deriving Repr, DecidableEq

def format_broadcast (room_name sender message : String) : String :=
  "[" ++ room_name ++ "] " ++ sender ++ ": " ++ message ++ "\n"

def broadcast_to_room (st : ServerState) (room_name message sender : String) :
    List Msg :=
  match st.rooms.find? (fun rm => rm.active && rm.name == room_name) with
  | none => []
  | some r =>
    (r.members.filter (fun m =>
      (st.clients.getD m default).active &&
      !((st.clients.getD m default).username == sender))).map
      (fun m => ⟨m, format_broadcast room_name sender message⟩)

/-- `handle_broadcast` (test.sh lines 817-827): error when not in a room,
otherwise fan out, then confirm to the sender, then log. -/
def handle_broadcast (st : ServerState) (i : Nat) (message : String) :
    List Msg × List String :=
  let c := st.clients.getD i default
  if c.current_room.length = 0 then
    ([⟨i, "[ERROR] Join a room first.\n"⟩], [])
  else
    (broadcast_to_room st c.current_room message c.username ++
       [⟨i, "[SUCCESS] Message broadcasted.\n"⟩],
     ["[BROADCAST] user '" ++ c.username ++ "': " ++ message])

theorem filter_beq_of_not_mem {l : List Nat} {m : Nat} (hm : m ∉ l) :
    l.filter (fun x => x == m) = [] := by
  rw [List.filter_eq_nil_iff]
  intro a ha hp
  have hae : a = m := by simpa using hp
  subst hae
  exact hm ha

theorem filter_beq_of_nodup {l : List Nat} (hnd : l.Nodup) {m : Nat}
    (hm : m ∈ l) : l.filter (fun x => x == m) = [m] := by
  induction l with
  | nil => cases hm
  | cons a t ih =>
    rw [List.nodup_cons] at hnd
    rcases List.mem_cons.mp hm with rfl | hm2
    · simp only [List.filter_cons, beq_self_eq_true, if_true]
      rw [filter_beq_of_not_mem hnd.1]
    · have hne : ¬ (a == m) = true := by
        intro hab
        have hae : a = m := by simpa using hab
        exact hnd.1 (hae ▸ hm2)
      simp only [List.filter_cons]
      rw [if_neg (by simpa using hne)]
      exact ih hnd.2 hm2

/-- C2: when an active, registered session that is a member of its current
room broadcasts, every other (active) member of that room receives exactly
one room-tagged line, the sender receives only the success line and no
room-tagged copy, and no line is addressed to any session outside the
room. -/
theorem spec_C2_broadcast_fanout (st : ServerState) (i : Nat)
    (message : String) (r : Room)
    (hi : i < st.clients.length)
    (hact : (st.clients.getD i default).active = true)
    (hlen : ¬ (st.clients.getD i default).current_room.length = 0)
    (hroom : st.rooms.find? (fun rm => rm.active &&
      rm.name == (st.clients.getD i default).current_room) = some r)
    (hmem : i ∈ r.members)
    (hnd : r.members.Nodup)
    (hvalid : ∀ m ∈ r.members, m < st.clients.length ∧
      (st.clients.getD m default).active = true)
    (huniq : uniqueUsernames st.clients)
    (hs : (st.clients.getD i default).username ≠ "") :
    (∀ m ∈ r.members, m ≠ i →
      (handle_broadcast st i message).1.filter (fun x => x.dest == m) =
        [⟨m, format_broadcast (st.clients.getD i default).current_room
              (st.clients.getD i default).username message⟩]) ∧
    (handle_broadcast st i message).1.filter (fun x => x.dest == i) =
      [⟨i, "[SUCCESS] Message broadcasted.\n"⟩] ∧
    (∀ d : Nat, d ∉ r.members → d ≠ i →
      (handle_broadcast st i message).1.filter (fun x => x.dest == d) = []) := by
  have h1 : (handle_broadcast st i message).1 =
      broadcast_to_room st (st.clients.getD i default).current_room message
        (st.clients.getD i default).username ++
      [⟨i, "[SUCCESS] Message broadcasted.\n"⟩] := by
    unfold handle_broadcast
    rw [if_neg hlen]
  have h2 : broadcast_to_room st (st.clients.getD i default).current_room
      message (st.clients.getD i default).username =
      (r.members.filter (fun m => m != i)).map
        (fun m => ⟨m, format_broadcast
          (st.clients.getD i default).current_room
          (st.clients.getD i default).username message⟩) := by
    simp only [broadcast_to_room, hroom]
    congr 1
    apply List.filter_congr
    intro m hm
    by_cases hmi : m = i
    · subst hmi
      simp
    · have hmlt := (hvalid m hm).1
      have hmact := (hvalid m hm).2
      have hune : (st.clients.getD m default).username ≠
          (st.clients.getD i default).username := by
        rcases huniq m hmlt i hi ⟨hmi, hmact, hact⟩ with h | h | h
        · exact h
        · rw [h]; exact fun he => hs he.symm
        · exact absurd h hs
      simp only [List.getD_eq_getElem?_getD] at hmact hune ⊢
      simp [hmact, hmi, beq_eq_false_iff_ne.mpr hune]
  refine ⟨?_, ?_, ?_⟩
  · intro m hm hmne
    rw [h1, h2, List.filter_append, List.filter_map]
    have hc1 : List.filter ((fun x : Msg => x.dest == m) ∘ (fun k => (⟨k,
        format_broadcast (st.clients.getD i default).current_room
          (st.clients.getD i default).username message⟩ : Msg)))
        (r.members.filter (fun k => k != i)) =
        List.filter (fun k => k == m) (r.members.filter (fun k => k != i)) :=
      List.filter_congr (fun _ _ => rfl)
    rw [hc1, List.filter_filter]
    have hc2 : List.filter (fun a => (a == m) && (a != i)) r.members =
        List.filter (fun a => a == m) r.members := by
      apply List.filter_congr
      intro a _
      by_cases ham : a = m
      · subst ham; simp [hmne]
      · simp [ham]
    rw [hc2, filter_beq_of_nodup hnd hm]
    have hne2 : ¬ i = m := fun h => hmne h.symm
    simp [hmne, hne2]
  · rw [h1, h2, List.filter_append, List.filter_map]
    have hc1 : List.filter ((fun x : Msg => x.dest == i) ∘ (fun k => (⟨k,
        format_broadcast (st.clients.getD i default).current_room
          (st.clients.getD i default).username message⟩ : Msg)))
        (r.members.filter (fun k => k != i)) =
        List.filter (fun k => k == i) (r.members.filter (fun k => k != i)) :=
      List.filter_congr (fun _ _ => rfl)
    rw [hc1, List.filter_filter]
    have hc2 : List.filter (fun a => (a == i) && (a != i)) r.members = [] := by
      rw [List.filter_eq_nil_iff]
      intro a _
      by_cases hai : a = i <;> simp [hai]
    rw [hc2]
    simp
  · intro d hdm hdi
    rw [h1, h2, List.filter_append, List.filter_map]
    have hc1 : List.filter ((fun x : Msg => x.dest == d) ∘ (fun k => (⟨k,
        format_broadcast (st.clients.getD i default).current_room
          (st.clients.getD i default).username message⟩ : Msg)))
        (r.members.filter (fun k => k != i)) =
        List.filter (fun k => k == d) (r.members.filter (fun k => k != i)) :=
      List.filter_congr (fun _ _ => rfl)
    rw [hc1, List.filter_filter]
    have hc2 : List.filter (fun a => (a == d) && (a != i)) r.members = [] := by
      rw [List.filter_eq_nil_iff]
      intro a ha
      have had : ¬ a = d := fun he => hdm (he ▸ ha)
      simp [had]
    rw [hc2]
    have hne2 : ¬ i = d := fun h => hdi h.symm
    simp [hne2]

theorem spec_C2_broadcast_fanout_witness :
    (handle_broadcast ⟨[⟨10, "a", "room1", true⟩, ⟨11, "b", "room1", true⟩,
        ⟨12, "c", "room1", true⟩], [⟨"room1", [0, 1, 2], true⟩]⟩
      0 "hi").1.filter (fun x => x.dest == 1) =
      [⟨1, format_broadcast "room1" "a" "hi"⟩] ∧
    (handle_broadcast ⟨[⟨10, "a", "room1", true⟩, ⟨11, "b", "room1", true⟩,
        ⟨12, "c", "room1", true⟩], [⟨"room1", [0, 1, 2], true⟩]⟩
      0 "hi").1.filter (fun x => x.dest == 2) =
      [⟨2, format_broadcast "room1" "a" "hi"⟩] ∧
    (handle_broadcast ⟨[⟨10, "a", "room1", true⟩, ⟨11, "b", "room1", true⟩,
        ⟨12, "c", "room1", true⟩], [⟨"room1", [0, 1, 2], true⟩]⟩
      0 "hi").1.filter (fun x => x.dest == 0) =
      [⟨0, "[SUCCESS] Message broadcasted.\n"⟩] ∧
    (handle_broadcast ⟨[⟨10, "a", "room1", true⟩, ⟨11, "b", "room1", true⟩,
        ⟨12, "c", "room1", true⟩], [⟨"room1", [0, 1, 2], true⟩]⟩
      0 "hi").1.filter (fun x => x.dest == 3) = [] := by
  have T := spec_C2_broadcast_fanout
    ⟨[⟨10, "a", "room1", true⟩, ⟨11, "b", "room1", true⟩,
      ⟨12, "c", "room1", true⟩], [⟨"room1", [0, 1, 2], true⟩]⟩
    0 "hi" ⟨"room1", [0, 1, 2], true⟩
    (by decide) (by decide) (by decide) (by decide) (by decide) (by decide)
    (by decide) (by decide) (by decide)
  exact ⟨T.1 1 (by decide) (by decide), T.1 2 (by decide) (by decide),
    T.2.1, T.2.2 3 (by decide) (by decide)⟩

/-! ## handle_file_send (test.sh lines 829-898)

The `/sendfile` path: validate the extension, resolve the target, then stat
the file.  The C code only enforces the 3 MiB limit when `stat` SUCCEEDS;
when `stat` fails the command still proceeds and enqueues a record whose
size is computed from the indeterminate stack contents of `st`
(`(st.st_mode & S_IFREG) ? st.st_size : 1024`).  The `garbage` parameter
models those indeterminate contents.  `q` is the queue at the
`sem_trywait`; `qWake` is the queue observed when a blocking `sem_wait`
returns in the queue-full branch. -/

structure FileStat where
  st_size : Nat
  st_isreg : Bool
  deriving Repr, DecidableEq

inductive SendfileResult where
  | rejectedType
  | rejectedOffline
  | rejectedOversize
  | queuedImmediate
  | queuedAfterWait
  deriving Repr, DecidableEq

structure SendfileOutcome where
  result : SendfileResult
  msgs : List String
  logs : List String
  q : UploadQueue
  deriving Repr, DecidableEq

def mkTransfer (filename sender receiver : String) (st : Option FileStat)
    (garbage : FileStat) : FileTransfer :=
  let s := st.getD garbage
  ⟨filename, sender, receiver, if s.st_isreg then s.st_size else 1024⟩

def sendfile_enqueue (q : UploadQueue) (t : FileTransfer) : UploadQueue :=
  { buf := q.buf.set q.rear t
    front := q.front
    rear := (q.rear + 1) % MAX_UPLOAD_QUEUE
    count := q.count + 1
    slots := q.slots - 1
    items := q.items + 1 }

def handle_file_send (clients : List Client) (i : Nat)
    (filename target : String) (st : Option FileStat) (garbage : FileStat)
    (q qWake : UploadQueue) : SendfileOutcome :=
  let c := clients.getD i default
  if validate_filename filename.toList = false then
    ⟨.rejectedType,
     ["[ERROR] Invalid file type. Allowed: .txt, .pdf, .jpg, .png\n"], [], q⟩
  else
    match find_client_by_username clients target with
    | none =>
      ⟨.rejectedOffline, ["[ERROR] Target user not found or offline.\n"],
       [], q⟩
    | some _ =>
      if (match st with
          | some s => decide (s.st_size > MAX_FILE_SIZE)
          | none => false) = true then
        ⟨.rejectedOversize, ["[ERROR] File exceeds size limit (3MB).\n"],
         ["[ERROR] File '" ++ filename ++ "' from user '" ++ c.username ++
          "' exceeds size limit"], q⟩
      else
        let t := mkTransfer filename c.username target st garbage
        if q.slots ≠ 0 then
          let q2 := sendfile_enqueue q t
          ⟨.queuedImmediate, ["[SUCCESS] File added to upload queue.\n"],
           ["[FILE-QUEUE] Upload '" ++ filename ++ "' from " ++ c.username ++
            " added to queue. Queue size: " ++ toString q2.count], q2⟩
        else
          let q2 := sendfile_enqueue qWake t
          ⟨.queuedAfterWait,
           ["[INFO] Upload queue full. Waiting...\n",
            "[SUCCESS] File queued for upload.\n"],
           ["[FILE-QUEUE] Upload '" ++ filename ++ "' from " ++ c.username ++
            " added to queue after wait. Queue size: " ++ toString q2.count],
           q2⟩

theorem producer_step_eq_sendfile_enqueue {q : UploadQueue}
    (t : FileTransfer) (h : ¬ q.slots = 0) :
    producer_step q t = some (sendfile_enqueue q t) := by
  simp [producer_step, sendfile_enqueue, h]

theorem sendfile_enqueue_abs {q : UploadQueue} {t : FileTransfer}
    (hwf : QWF q) (h : ¬ q.slots = 0) :
    QWF (sendfile_enqueue q t) ∧
    absQueue (sendfile_enqueue q t) = absQueue q ++ [t] :=
  producer_step_abs hwf (producer_step_eq_sendfile_enqueue t h)

/-- C3: once extension, target and size validation pass, a successful
non-blocking `slots` acquire enqueues immediately with
`"[SUCCESS] File added to upload queue.\n"`, a failed one first emits
`"[INFO] Upload queue full. Waiting...\n"`, then blocking-acquires, enqueues
and emits `"[SUCCESS] File queued for upload.\n"`; both branches log a
FILE-QUEUE event carrying the current queue size. -/
theorem spec_C3_upload_backpressure (clients : List Client) (i : Nat)
    (filename target : String) (st : Option FileStat) (garbage : FileStat)
    (q qWake : UploadQueue) (j : Nat)
    (hval : validate_filename filename.toList = true)
    (hfind : find_client_by_username clients target = some j)
    (hsize : (match st with
        | some s => decide (s.st_size > MAX_FILE_SIZE)
        | none => false) = false) :
    (¬ q.slots = 0 →
      handle_file_send clients i filename target st garbage q qWake =
        ⟨.queuedImmediate, ["[SUCCESS] File added to upload queue.\n"],
         ["[FILE-QUEUE] Upload '" ++ filename ++ "' from " ++
            (clients.getD i default).username ++
            " added to queue. Queue size: " ++
            toString (sendfile_enqueue q (mkTransfer filename
              (clients.getD i default).username target st garbage)).count],
         sendfile_enqueue q (mkTransfer filename
           (clients.getD i default).username target st garbage)⟩ ∧
      (QWF q →
        absQueue (handle_file_send clients i filename target st garbage
            q qWake).q =
          absQueue q ++ [mkTransfer filename
            (clients.getD i default).username target st garbage])) ∧
    (q.slots = 0 →
      handle_file_send clients i filename target st garbage q qWake =
        ⟨.queuedAfterWait,
         ["[INFO] Upload queue full. Waiting...\n",
          "[SUCCESS] File queued for upload.\n"],
         ["[FILE-QUEUE] Upload '" ++ filename ++ "' from " ++
            (clients.getD i default).username ++
            " added to queue after wait. Queue size: " ++
            toString (sendfile_enqueue qWake (mkTransfer filename
              (clients.getD i default).username target st garbage)).count],
         sendfile_enqueue qWake (mkTransfer filename
           (clients.getD i default).username target st garbage)⟩ ∧
      (QWF qWake → ¬ qWake.slots = 0 →
        absQueue (handle_file_send clients i filename target st garbage
            q qWake).q =
          absQueue qWake ++ [mkTransfer filename
            (clients.getD i default).username target st garbage])) := by
  have hval2 : validate_filename filename.data = true := hval
  constructor
  · intro hslots
    have heq : handle_file_send clients i filename target st garbage q qWake =
        ⟨.queuedImmediate, ["[SUCCESS] File added to upload queue.\n"],
         ["[FILE-QUEUE] Upload '" ++ filename ++ "' from " ++
            (clients.getD i default).username ++
            " added to queue. Queue size: " ++
            toString (sendfile_enqueue q (mkTransfer filename
              (clients.getD i default).username target st garbage)).count],
         sendfile_enqueue q (mkTransfer filename
           (clients.getD i default).username target st garbage)⟩ := by
      simp [handle_file_send, hval2, hfind, hsize, hslots]
    refine ⟨heq, ?_⟩
    intro hwf
    rw [heq]
    exact (sendfile_enqueue_abs hwf hslots).2
  · intro hslots
    have heq : handle_file_send clients i filename target st garbage q qWake =
        ⟨.queuedAfterWait,
         ["[INFO] Upload queue full. Waiting...\n",
          "[SUCCESS] File queued for upload.\n"],
         ["[FILE-QUEUE] Upload '" ++ filename ++ "' from " ++
            (clients.getD i default).username ++
            " added to queue after wait. Queue size: " ++
            toString (sendfile_enqueue qWake (mkTransfer filename
              (clients.getD i default).username target st garbage)).count],
         sendfile_enqueue qWake (mkTransfer filename
           (clients.getD i default).username target st garbage)⟩ := by
      simp [handle_file_send, hval2, hfind, hsize, hslots]
    refine ⟨heq, ?_⟩
    intro hwf hw
    rw [heq]
    exact (sendfile_enqueue_abs hwf hw).2

theorem spec_C3_upload_backpressure_witness :
    (handle_file_send [⟨10, "u", "", true⟩, ⟨11, "v", "", true⟩] 0 "a.txt"
        "v" (some ⟨100, true⟩) ⟨0, false⟩ initQueue initQueue).msgs =
      ["[SUCCESS] File added to upload queue.\n"] ∧
    (handle_file_send [⟨10, "u", "", true⟩, ⟨11, "v", "", true⟩] 0 "a.txt"
        "v" (some ⟨100, true⟩) ⟨0, false⟩
        ⟨List.replicate 5 default, 0, 0, 5, 0, 5⟩
        ⟨List.replicate 5 default, 1, 0, 4, 1, 4⟩).msgs =
      ["[INFO] Upload queue full. Waiting...\n",
       "[SUCCESS] File queued for upload.\n"] ∧
    absQueue (handle_file_send [⟨10, "u", "", true⟩, ⟨11, "v", "", true⟩] 0
        "a.txt" "v" (some ⟨100, true⟩) ⟨0, false⟩ initQueue initQueue).q =
      absQueue initQueue ++
        [mkTransfer "a.txt" "u" "v" (some ⟨100, true⟩) ⟨0, false⟩] := by
  have T1 := spec_C3_upload_backpressure
    [⟨10, "u", "", true⟩, ⟨11, "v", "", true⟩] 0 "a.txt" "v"
    (some ⟨100, true⟩) ⟨0, false⟩ initQueue initQueue 1
    (by decide) (by decide) (by decide)
  have T2 := spec_C3_upload_backpressure
    [⟨10, "u", "", true⟩, ⟨11, "v", "", true⟩] 0 "a.txt" "v"
    (some ⟨100, true⟩) ⟨0, false⟩
    ⟨List.replicate 5 default, 0, 0, 5, 0, 5⟩
    ⟨List.replicate 5 default, 1, 0, 4, 1, 4⟩ 1
    (by decide) (by decide) (by decide)
  refine ⟨?_, ?_, ?_⟩
  · rw [(T1.1 (by decide)).1]
  · rw [(T2.2 (by decide)).1]
  · exact (T1.1 (by decide)).2 (by decide)

/-- C4: what the code actually does at the claim's failing input — when
`stat` FAILS the `/sendfile` command is not rejected: the record is still
enqueued with a size computed from the indeterminate stack contents of
`st`, and the sender is told the file was added; the oversize rejection
only fires when `stat` succeeds (shown here for a 4 MiB regular file). -/
theorem spec_C4_stat_failure_behavior :
    (∀ garbage : FileStat,
      (handle_file_send [⟨10, "u", "", true⟩, ⟨11, "v", "", true⟩] 0
          "ghost.txt" "v" none garbage initQueue initQueue).result =
        SendfileResult.queuedImmediate ∧
      (handle_file_send [⟨10, "u", "", true⟩, ⟨11, "v", "", true⟩] 0
          "ghost.txt" "v" none garbage initQueue initQueue).msgs =
        ["[SUCCESS] File added to upload queue.\n"]) ∧
    absQueue (handle_file_send [⟨10, "u", "", true⟩, ⟨11, "v", "", true⟩] 0
        "ghost.txt" "v" none ⟨0, false⟩ initQueue initQueue).q =
      [⟨"ghost.txt", "u", "v", 1024⟩] ∧
    handle_file_send [⟨10, "u", "", true⟩, ⟨11, "v", "", true⟩] 0 "big.txt"
        "v" (some ⟨4194304, true⟩) ⟨0, false⟩ initQueue initQueue =
      ⟨.rejectedOversize, ["[ERROR] File exceeds size limit (3MB).\n"],
       ["[ERROR] File 'big.txt' from user 'u' exceeds size limit"],
       initQueue⟩ := by
  refine ⟨?_, by decide, by decide⟩
  intro garbage
  exact ⟨rfl, rfl⟩

/-! ## signal_handler (test.sh lines 925-948)

The SIGINT handler as the exact sequence of externally visible actions the
code performs: clear the running flag, send the goodbye line to every
active session (in slot order, under the clients lock), log SHUTDOWN with
the active count, close the listening socket, close (and thereby flush)
the log file, and exit.  `postItems` models a `sem_post(&upload_queue.items)`
sentinel; the code never performs one. -/

inductive SHAction where
  | setRunningFalse
  | send (dest : Nat) (text : String)
  | logEvent (text : String)
  | closeListenSocket
  | closeLog
  | exitProcess
  | postItems
  deriving Repr, DecidableEq

def signal_handler_trace (clients : List Client) : List SHAction :=
  SHAction.setRunningFalse ::
  ((List.range clients.length).filterMap (fun k =>
    if (clients.getD k default).active = true then
      some (SHAction.send k "[SERVER] Server shutting down. Goodbye!\n")
    else none) ++
   [SHAction.logEvent ("[SHUTDOWN] SIGINT received. Disconnecting " ++
      toString (clients.filter (fun c => c.active)).length ++
      " clients, saving logs."),
    SHAction.closeListenSocket, SHAction.closeLog, SHAction.exitProcess])

theorem postItems_not_in_sends (clients : List Client) :
    SHAction.postItems ∉ (List.range clients.length).filterMap (fun k =>
      if (clients.getD k default).active = true then
        some (SHAction.send k "[SERVER] Server shutting down. Goodbye!\n")
      else none) := by
  intro h
  rw [List.mem_filterMap] at h
  obtain ⟨a, _, ha⟩ := h
  by_cases hact : (clients.getD a default).active = true
  · rw [if_pos hact] at ha; simp at ha
  · rw [if_neg hact] at ha; simp at ha

/-- C7: what the SIGINT handler actually does — it emits the goodbye line to
each active session, logs SHUTDOWN with the count, closes the listening
socket, closes (flushing) the log and exits, but it never posts an `items`
semaphore sentinel, so a Transfer worker blocked on `items` is not woken
the way the claim requires. -/
theorem spec_C7_shutdown_no_sentinel :
    (∀ clients : List Client,
      SHAction.postItems ∉ signal_handler_trace clients) ∧
    signal_handler_trace [⟨10, "a", "", true⟩, ⟨11, "b", "", true⟩,
        ⟨12, "", "", false⟩] =
      [SHAction.setRunningFalse,
       SHAction.send 0 "[SERVER] Server shutting down. Goodbye!\n",
       SHAction.send 1 "[SERVER] Server shutting down. Goodbye!\n",
       SHAction.logEvent
         "[SHUTDOWN] SIGINT received. Disconnecting 2 clients, saving logs.",
       SHAction.closeListenSocket, SHAction.closeLog,
       SHAction.exitProcess] := by
  constructor
  · intro clients hmem
    simp only [signal_handler_trace, List.mem_cons, List.mem_append] at hmem
    rcases hmem with h | h | h
    · simp at h
    · exact postItems_not_in_sends clients h
    · simp at h
  · decide

/-! ## cleanup_client (test.sh lines 900-923)

The teardown sequence for a session, as the list of intermediate states a
concurrent observer could see between the individual writes.  `closed`
records whether `close(socket)` has already happened.  The code order is:
leave the room, log, `close(socket)`, `socket = -1`, `active = 0`,
`username[0] = 0`, `current_room[0] = 0`. -/

structure CleanupState where
  client : Client
  closed : Bool
  deriving Repr, DecidableEq

def cleanup_states (c : Client) : List CleanupState :=
  if c.active = false then [⟨c, false⟩]
  else
    let cA := if c.current_room.length = 0 then c
              else { c with current_room := "" }
    let cB := if c.socket = -1 then cA else { cA with socket := -1 }
    let cl : Bool := if c.socket = -1 then false else true
    [⟨c, false⟩, ⟨cA, false⟩] ++
    (if c.socket = -1 then [] else [⟨cA, true⟩]) ++
    [⟨cB, cl⟩,
     ⟨{ cB with active := false }, cl⟩,
     ⟨{ cB with active := false, username := "" }, cl⟩,
     ⟨{ cB with active := false, username := "", current_room := "" }, cl⟩]

/-- C8: what `cleanup_client` actually does — the socket is closed BEFORE
the session stops being findable in the user registry: for the session
`⟨7, "alice", "", true⟩` there is a reachable intermediate state whose
stream is closed while the entry is still active under its username, so a
concurrent `find_client_by_username "alice"` still returns the handle whose
socket is already closed. -/
theorem spec_C8_close_before_deregistration :
    ∃ s ∈ cleanup_states ⟨7, "alice", "", true⟩,
      s.closed = true ∧ s.client.active = true ∧
      s.client.username = "alice" ∧
      find_client_by_username [s.client] "alice" = some 0 := by decide

/-! ## Joining and leaving rooms (test.sh lines 728-799, 1002-1021)

`find_or_create_room` returns the slot of the first active room with the
requested name, or claims the first inactive slot; `handle_leave_room`
splices the client out of the first active room matching its
`current_room`, deactivates the room when it becomes empty, and clears
`current_room`; `handle_join_room` validates, leaves the current room if
any, then appends the client to the found-or-created room unless it is
full. -/

def validate_room_name (room_name : String) : Bool :=
  if room_name.length = 0 ∨ MAX_ROOM_NAME_LEN < room_name.length then false
  else room_name.toList.all isAlnumChar

def find_or_create_room (rooms : List Room) (room_name : String) :
    Option (Nat × List Room) :=
  match rooms.findIdx? (fun r => r.active && r.name == room_name) with
  | some ri => some (ri, rooms)
  | none =>
    match rooms.findIdx? (fun r => !r.active) with
    | some ri => some (ri, rooms.set ri ⟨room_name, [], true⟩)
    | none => none

structure CmdOutcome where
  st : ServerState
  msgs : List Msg
  logs : List String
  deriving Repr, DecidableEq

def handle_leave_room (st : ServerState) (i : Nat) : CmdOutcome :=
  let c := st.clients.getD i default
  if c.current_room.length = 0 then
    ⟨st, [⟨i, "[ERROR] You are not in any room.\n"⟩], []⟩
  else
    let rooms2 :=
      match st.rooms.findIdx? (fun r => r.active &&
          r.name == c.current_room) with
      | none => st.rooms
      | some ri =>
        let r := st.rooms.getD ri default
        let ms := r.members.erase i
        let act := if ms.length = 0 then false else r.active
        st.rooms.set ri { r with members := ms, active := act }
    ⟨⟨st.clients.set i { c with current_room := "" }, rooms2⟩,
     [⟨i, "[SUCCESS] Left room '" ++ c.current_room ++ "'\n"⟩],
     ["[LEAVE] user '" ++ c.username ++ "' left room '" ++
        c.current_room ++ "'"]⟩

def handle_join_room (st : ServerState) (i : Nat) (room_name : String) :
    CmdOutcome :=
  if validate_room_name room_name = false then
    ⟨st, [⟨i, "[ERROR] Invalid room name. Use alphanumeric characters only.\n"⟩],
     []⟩
  else
    let afterLeave :=
      if (st.clients.getD i default).current_room.length = 0 then
        (⟨st, [], []⟩ : CmdOutcome)
      else handle_leave_room st i
    let st1 := afterLeave.st
    let c := st1.clients.getD i default
    match find_or_create_room st1.rooms room_name with
    | none =>
      ⟨st1, afterLeave.msgs ++ [⟨i, "[ERROR] Unable to join room.\n"⟩],
       afterLeave.logs⟩
    | some (ri, rooms1) =>
      let r := rooms1.getD ri default
      if MAX_CLIENTS ≤ r.members.length then
        ⟨⟨st1.clients, rooms1⟩,
         afterLeave.msgs ++ [⟨i, "[ERROR] Room is full.\n"⟩],
         afterLeave.logs⟩
      else
        ⟨⟨st1.clients.set i { c with current_room := room_name },
          rooms1.set ri { r with members := r.members ++ [i] }⟩,
         afterLeave.msgs ++
           [⟨i, "[SUCCESS] Joined room '" ++ room_name ++ "'\n"⟩],
         afterLeave.logs ++ ["[JOIN] user '" ++ c.username ++
           "' joined room '" ++ room_name ++ "'"]⟩

theorem findIdx_set_same {α : Type _} {p : α → Bool} :
    ∀ (l : List α) (n : Nat), l.findIdx p = n → n < l.length →
      ∀ x : α, p x = true → (l.set n x).findIdx p = n := by
  intro l
  induction l with
  | nil => intro n _ h; simp at h
  | cons a t ih =>
    intro n hfi hlt x hx
    by_cases hpa : p a = true
    · have hn : n = 0 := by
        rw [List.findIdx_cons, hpa] at hfi
        simpa using hfi.symm
      subst hn
      simp [List.set_cons_zero, List.findIdx_cons, hx]
    · have hpa2 : p a = false := by
        revert hpa; cases p a <;> simp
      rw [List.findIdx_cons, hpa2] at hfi
      simp only [cond_false] at hfi
      obtain ⟨m, rfl⟩ : ∃ m, n = m + 1 := ⟨t.findIdx p, hfi.symm⟩
      have hm : t.findIdx p = m := by omega
      have hmlt : m < t.length := by simpa using hlt
      rw [List.set_cons_succ, List.findIdx_cons, hpa2]
      simp only [cond_false]
      rw [ih m hm hmlt x hx]

theorem findIdx_set_of_all_false {α : Type _} {p : α → Bool} :
    ∀ (l : List α) (n : Nat), (∀ y ∈ l, p y = false) → n < l.length →
      ∀ x : α, p x = true → (l.set n x).findIdx p = n := by
  intro l
  induction l with
  | nil => intro n _ h; simp at h
  | cons a t ih =>
    intro n hall hlt x hx
    cases n with
    | zero => simp [List.set_cons_zero, List.findIdx_cons, hx]
    | succ m =>
      have hpa : p a = false := hall a (List.mem_cons_self a t)
      have hmlt : m < t.length := by simpa using hlt
      rw [List.set_cons_succ, List.findIdx_cons, hpa]
      simp only [cond_false]
      rw [ih m (fun y hy => hall y (List.mem_cons_of_mem a hy)) hmlt x hx]

theorem findIdx?_set_found {α : Type _} {p : α → Bool} {l : List α}
    {n : Nat} {x : α} (h : l.findIdx? p = some n) (hx : p x = true) :
    (l.set n x).findIdx? p = some n := by
  rw [List.findIdx?_eq_some_iff_findIdx_eq] at h ⊢
  obtain ⟨hlt, hfi⟩ := h
  exact ⟨by simpa using hlt, findIdx_set_same l n hfi hlt x hx⟩

theorem findIdx?_set_of_none {α : Type _} {p : α → Bool} {l : List α}
    {n : Nat} {x : α} (h : l.findIdx? p = none) (hn : n < l.length)
    (hx : p x = true) : (l.set n x).findIdx? p = some n := by
  rw [List.findIdx?_eq_none_iff] at h
  rw [List.findIdx?_eq_some_iff_findIdx_eq]
  exact ⟨by simpa using hn, findIdx_set_of_all_false l n h hn x hx⟩

theorem findIdx?_lt_length {α : Type _} {p : α → Bool} {l : List α}
    {n : Nat} (h : l.findIdx? p = some n) : n < l.length :=
  (List.findIdx?_eq_some_iff_findIdx_eq.mp h).1

theorem findIdx?_getD_prop {α : Type _} {p : α → Bool} {l : List α}
    {n : Nat} (d : α) (h : l.findIdx? p = some n) :
    p (l.getD n d) = true := by
  rw [List.findIdx?_eq_some_iff_findIdx_eq] at h
  obtain ⟨hlt, hfi⟩ := h
  rw [List.getD_eq_getElem _ _ hlt]
  subst hfi
  exact @List.findIdx_getElem _ p l hlt

theorem validate_room_name_len {X : String} (h : validate_room_name X = true) :
    ¬ X.length = 0 := by
  intro h0
  rw [validate_room_name, if_pos (Or.inl h0)] at h
  cases h

theorem string_len_zero {s : String} (h : s.length = 0) : s = "" := by
  cases s with
  | mk data =>
    have hd : data.length = 0 := h
    have : data = [] := List.length_eq_zero.mp hd
    rw [this]

theorem getElem?_set_getD_self {α : Type _} (l : List α) (i : Nat) (x d : α)
    (h : i < l.length) : (l.set i x)[i]?.getD d = x := by
  rw [List.getElem?_set_self h]; rfl

/-- After any `/leave`, the session's `current_room` is empty: either it was
already empty (error branch) or the else branch clears it. -/
theorem handle_leave_room_clears (st : ServerState) (i : Nat)
    (hi : i < st.clients.length) :
    ((handle_leave_room st i).st.clients.getD i default).current_room = "" := by
  unfold handle_leave_room
  by_cases h : (st.clients.getD i default).current_room.length = 0
  · rw [if_pos h]
    exact string_len_zero h
  · rw [if_neg h]
    show ((st.clients.set i
      { st.clients.getD i default with current_room := "" }).getD i
        default).current_room = ""
    rw [getD_set_self _ _ _ _ hi]

theorem handle_leave_room_rooms (st : ServerState) (i : Nat)
    (hlen : ¬ (st.clients.getD i default).current_room.length = 0)
    {ri : Nat}
    (hfind : st.rooms.findIdx? (fun r => r.active &&
      r.name == (st.clients.getD i default).current_room) = some ri) :
    (handle_leave_room st i).st.rooms =
      st.rooms.set ri (Room.mk (st.rooms.getD ri default).name
        ((st.rooms.getD ri default).members.erase i)
        (if ((st.rooms.getD ri default).members.erase i).length = 0 then false
         else (st.rooms.getD ri default).active)) := by
  unfold handle_leave_room
  rw [if_neg hlen]
  show (match st.rooms.findIdx? (fun r => r.active &&
      r.name == (st.clients.getD i default).current_room) with
    | none => st.rooms
    | some ri =>
      st.rooms.set ri (Room.mk (st.rooms.getD ri default).name
        ((st.rooms.getD ri default).members.erase i)
        (if ((st.rooms.getD ri default).members.erase i).length = 0 then false
         else (st.rooms.getD ri default).active))) = _
  rw [hfind]

theorem handle_join_room_st_none (st : ServerState) (i : Nat) (X : String)
    (hvalne : ¬ validate_room_name X = false)
    (hclen : (st.clients.getD i default).current_room.length = 0)
    (hfoc : find_or_create_room st.rooms X = none) :
    (handle_join_room st i X).st = st := by
  unfold handle_join_room
  rw [if_neg hvalne]
  simp only [if_pos hclen]
  split
  · rfl
  · rename_i ri rooms1 hres
    rw [hfoc] at hres
    cases hres

theorem handle_join_room_st_full (st : ServerState) (i : Nat) (X : String)
    (hvalne : ¬ validate_room_name X = false)
    (hclen : (st.clients.getD i default).current_room.length = 0)
    {ri0 : Nat} {rooms1 : List Room}
    (hfoc : find_or_create_room st.rooms X = some (ri0, rooms1))
    (hfull : MAX_CLIENTS ≤ (rooms1.getD ri0 default).members.length) :
    (handle_join_room st i X).st = ⟨st.clients, rooms1⟩ := by
  unfold handle_join_room
  rw [if_neg hvalne]
  simp only [if_pos hclen]
  split
  · rename_i hres
    rw [hfoc] at hres
    cases hres
  · rename_i ri rooms2 hres
    rw [hfoc] at hres
    have hp := Option.some.inj hres
    obtain ⟨rfl, rfl⟩ : ri0 = ri ∧ rooms1 = rooms2 :=
      ⟨congrArg Prod.fst hp, congrArg Prod.snd hp⟩
    rw [if_pos hfull]

theorem handle_join_room_st_join (st : ServerState) (i : Nat) (X : String)
    (hvalne : ¬ validate_room_name X = false)
    (hclen : (st.clients.getD i default).current_room.length = 0)
    {ri0 : Nat} {rooms1 : List Room}
    (hfoc : find_or_create_room st.rooms X = some (ri0, rooms1))
    (hnotfull : ¬ MAX_CLIENTS ≤ (rooms1.getD ri0 default).members.length) :
    (handle_join_room st i X).st =
      ⟨st.clients.set i
         { st.clients.getD i default with current_room := X },
       rooms1.set ri0
         { rooms1.getD ri0 default with
           members := (rooms1.getD ri0 default).members ++ [i] }⟩ := by
  unfold handle_join_room
  rw [if_neg hvalne]
  simp only [if_pos hclen]
  split
  · rename_i hres
    rw [hfoc] at hres
    cases hres
  · rename_i ri rooms2 hres
    rw [hfoc] at hres
    have hp := Option.some.inj hres
    obtain ⟨rfl, rfl⟩ : ri0 = ri ∧ rooms1 = rooms2 :=
      ⟨congrArg Prod.fst hp, congrArg Prod.snd hp⟩
    rw [if_neg hnotfull]

/-- C9: for a session in no room, `/join X` (valid name) followed by
`/leave` restores the session's `current_room` to the empty string, and if
the session was the only member of the room it joined, that room's active
flag is cleared by the leave. -/
theorem spec_C9_join_leave_roundtrip (st : ServerState) (i : Nat) (X : String)
    (hi : i < st.clients.length)
    (hempty : (st.clients.getD i default).current_room = "")
    (hnomem : ∀ r ∈ st.rooms, i ∉ r.members)
    (hval : validate_room_name X = true) :
    (((handle_leave_room (handle_join_room st i X).st i).st.clients.getD i
        default).current_room = "") ∧
    (∀ ri : Nat,
      (handle_join_room st i X).st.rooms.findIdx?
        (fun r => r.active && r.name == X) = some ri →
      ((handle_join_room st i X).st.rooms.getD ri default).members = [i] →
      ((handle_leave_room (handle_join_room st i X).st i).st.rooms.getD ri
        default).active = false) := by
  have hXlen := validate_room_name_len hval
  have hvalne : ¬ validate_room_name X = false := by rw [hval]; simp
  have hclen : (st.clients.getD i default).current_room.length = 0 := by
    rw [hempty]
    rfl
  cases hfX : st.rooms.findIdx? (fun r => r.active && r.name == X) with
  | some ri0 =>
    have hri0lt : ri0 < st.rooms.length := findIdx?_lt_length hfX
    have hfoc : find_or_create_room st.rooms X = some (ri0, st.rooms) := by
      unfold find_or_create_room
      rw [hfX]
    have hp0 : ((st.rooms.getD ri0 default).active &&
        (st.rooms.getD ri0 default).name == X) = true :=
      findIdx?_getD_prop default hfX
    by_cases hfull : MAX_CLIENTS ≤ (st.rooms.getD ri0 default).members.length
    · have heqJ : (handle_join_room st i X).st = st :=
        handle_join_room_st_full st i X hvalne hclen hfoc hfull
      constructor
      · rw [heqJ]
        exact handle_leave_room_clears st i hi
      · intro ri hri hmem
        exfalso
        rw [heqJ] at hri hmem
        have hrilt : ri < st.rooms.length := findIdx?_lt_length hri
        have hmem2 : st.rooms.getD ri default ∈ st.rooms := by
          rw [List.getD_eq_getElem _ _ hrilt]
          exact List.getElem_mem hrilt
        exact hnomem _ hmem2
          (by rw [hmem]; exact List.mem_singleton_self i)
    · have heqJ := handle_join_room_st_join st i X hvalne hclen hfoc hfull
      have hclients : (handle_join_room st i X).st.clients =
          st.clients.set i
            { st.clients.getD i default with current_room := X } := by
        rw [heqJ]
      have hrooms : (handle_join_room st i X).st.rooms =
          st.rooms.set ri0
            { st.rooms.getD ri0 default with
              members := (st.rooms.getD ri0 default).members ++ [i] } := by
        rw [heqJ]
      have hcr : ((handle_join_room st i X).st.clients.getD i
          default).current_room = X := by
        rw [hclients, getD_set_self _ _ _ _ hi]
      have hlenJ : ¬ ((handle_join_room st i X).st.clients.getD i
          default).current_room.length = 0 := by
        rw [hcr]; exact hXlen
      have hp0b : (({ st.rooms.getD ri0 default with
          members := (st.rooms.getD ri0 default).members ++ [i] }
            : Room).active &&
          ({ st.rooms.getD ri0 default with
            members := (st.rooms.getD ri0 default).members ++ [i] }
              : Room).name == X) = true := hp0
      have hfind1 : (st.rooms.set ri0
          { st.rooms.getD ri0 default with
            members := (st.rooms.getD ri0 default).members ++ [i] }).findIdx?
          (fun r => r.active && r.name == X) = some ri0 :=
        findIdx?_set_found hfX hp0b
      have hfindJ : (handle_join_room st i X).st.rooms.findIdx?
          (fun r => r.active &&
            r.name == ((handle_join_room st i X).st.clients.getD i
              default).current_room) = some ri0 := by
        rw [hcr, hrooms]; exact hfind1
      have hgJ : (handle_join_room st i X).st.rooms.getD ri0 default =
          { st.rooms.getD ri0 default with
            members := (st.rooms.getD ri0 default).members ++ [i] } := by
        rw [hrooms]; exact getD_set_self _ _ _ _ hri0lt
      have hroomsL := handle_leave_room_rooms (handle_join_room st i X).st i
        hlenJ hfindJ
      constructor
      · have hiJ : i < (handle_join_room st i X).st.clients.length := by
          rw [hclients, List.length_set]; exact hi
        exact handle_leave_room_clears _ i hiJ
      · intro ri hri hmem
        rw [hrooms] at hri
        obtain rfl : ri0 = ri := Option.some.inj (hfind1.symm.trans hri)
        rw [hgJ] at hmem
        have hnil : (st.rooms.getD ri0 default).members = [] := by
          cases hcase : (st.rooms.getD ri0 default).members with
          | nil => rfl
          | cons a t =>
            rw [show ({ st.rooms.getD ri0 default with
              members := (st.rooms.getD ri0 default).members ++ [i] }
                : Room).members =
              (st.rooms.getD ri0 default).members ++ [i] from rfl,
              hcase] at hmem
            simp at hmem
        have hriJlt : ri0 < (handle_join_room st i X).st.rooms.length := by
          rw [hrooms, List.length_set]; exact hri0lt
        rw [hroomsL, getD_set_self _ _ _ _ hriJlt]
        show (if (((handle_join_room st i X).st.rooms.getD ri0
            default).members.erase i).length = 0 then false
          else ((handle_join_room st i X).st.rooms.getD ri0
            default).active) = false
        rw [hgJ]
        show (if (((st.rooms.getD ri0 default).members ++ [i]).erase
            i).length = 0 then false
          else ({ st.rooms.getD ri0 default with
            members := (st.rooms.getD ri0 default).members ++ [i] }
              : Room).active) = false
        rw [hnil]
        simp
  | none =>
    cases hfree : st.rooms.findIdx? (fun r => !r.active) with
    | none =>
      have hfoc : find_or_create_room st.rooms X = none := by
        unfold find_or_create_room
        rw [hfX, hfree]
      have heqJ : (handle_join_room st i X).st = st :=
        handle_join_room_st_none st i X hvalne hclen hfoc
      constructor
      · rw [heqJ]
        exact handle_leave_room_clears st i hi
      · intro ri hri hmem
        rw [heqJ, hfX] at hri
        cases hri
    | some rj =>
      have hrjlt : rj < st.rooms.length := findIdx?_lt_length hfree
      have hfoc : find_or_create_room st.rooms X =
          some (rj, st.rooms.set rj ⟨X, [], true⟩) := by
        unfold find_or_create_room
        rw [hfX, hfree]
      have hg1 : (st.rooms.set rj (⟨X, [], true⟩ : Room)).getD rj default =
          ⟨X, [], true⟩ := getD_set_self _ _ _ _ hrjlt
      have hnotfull : ¬ MAX_CLIENTS ≤
          ((st.rooms.set rj (⟨X, [], true⟩ : Room)).getD rj
            default).members.length := by
        rw [hg1]; simp [MAX_CLIENTS]
      have heqJ := handle_join_room_st_join st i X hvalne hclen hfoc hnotfull
      have hclients : (handle_join_room st i X).st.clients =
          st.clients.set i
            { st.clients.getD i default with current_room := X } := by
        rw [heqJ]
      have hrooms : (handle_join_room st i X).st.rooms =
          st.rooms.set rj ⟨X, [i], true⟩ := by
        rw [heqJ]
        show ((st.rooms.set rj (⟨X, [], true⟩ : Room)).set rj _) = _
        rw [List.set_set, hg1]
        rfl
      have hcr : ((handle_join_room st i X).st.clients.getD i
          default).current_room = X := by
        rw [hclients, getD_set_self _ _ _ _ hi]
      have hlenJ : ¬ ((handle_join_room st i X).st.clients.getD i
          default).current_room.length = 0 := by
        rw [hcr]; exact hXlen
      have hfind1 : (st.rooms.set rj (⟨X, [i], true⟩ : Room)).findIdx?
          (fun r => r.active && r.name == X) = some rj :=
        findIdx?_set_of_none hfX hrjlt (by simp)
      have hfindJ : (handle_join_room st i X).st.rooms.findIdx?
          (fun r => r.active &&
            r.name == ((handle_join_room st i X).st.clients.getD i
              default).current_room) = some rj := by
        rw [hcr, hrooms]; exact hfind1
      have hgJ : (handle_join_room st i X).st.rooms.getD rj default =
          ⟨X, [i], true⟩ := by
        rw [hrooms]; exact getD_set_self _ _ _ _ hrjlt
      have hroomsL := handle_leave_room_rooms (handle_join_room st i X).st i
        hlenJ hfindJ
      constructor
      · have hiJ : i < (handle_join_room st i X).st.clients.length := by
          rw [hclients, List.length_set]; exact hi
        exact handle_leave_room_clears _ i hiJ
      · intro ri hri hmem
        rw [hrooms] at hri
        obtain rfl : rj = ri := Option.some.inj (hfind1.symm.trans hri)
        have hriJlt : rj < (handle_join_room st i X).st.rooms.length := by
          rw [hrooms, List.length_set]; exact hrjlt
        rw [hroomsL, getD_set_self _ _ _ _ hriJlt]
        show (if (((handle_join_room st i X).st.rooms.getD rj
            default).members.erase i).length = 0 then false
          else ((handle_join_room st i X).st.rooms.getD rj
            default).active) = false
        rw [hgJ]
        simp

theorem spec_C9_join_leave_roundtrip_witness :
    (((handle_leave_room (handle_join_room
        ⟨[⟨10, "u", "", true⟩], [⟨"", [], false⟩]⟩ 0 "room1").st
        0).st.clients.getD 0 default).current_room = "") ∧
    ((handle_leave_room (handle_join_room
        ⟨[⟨10, "u", "", true⟩], [⟨"", [], false⟩]⟩ 0 "room1").st
        0).st.rooms.getD 0 default).active = false := by
  have T := spec_C9_join_leave_roundtrip
    ⟨[⟨10, "u", "", true⟩], [⟨"", [], false⟩]⟩ 0 "room1"
    (by decide) (by decide) (by decide) (by decide)
  exact ⟨T.1, T.2 0 (by decide) (by decide)⟩
